import Mathlib

/-!
StockFlow inventory tracker: a shallow embedding of the two script variants
found in the repository (the full CRUD user interface, and the scan-only
variant) covering the inventory store operations, the derived views and the
localStorage persistence contract.  Clock readings, random suffixes and
timestamp strings are explicit environment inputs of the operations that
consume them.
-/

/-- An inventory record.  The field `quantity` is an `Int` (a JS number
holding an integer); non-negativity is proved, never assumed.  The fields
`notes`, `createdAt` and `updatedAt` are `Option` because the scan-only
variant creates records without them. -/
structure Item where
  id : String
  name : String
  sku : String
  category : String
  quantity : Int
  unit : String
  notes : Option String
  createdAt : Option String
  updatedAt : Option String
deriving Repr, DecidableEq

/-- The item data submitted by the add form (handleFormSubmit in the full
variant): every field except `id` and the timestamps. -/
structure Draft where
  name : String
  sku : String
  category : String
  quantity : Int
  unit : String
  notes : String
deriving Repr, DecidableEq

/-- A field patch passed to updateItem.  The source merges a JS object by
spread; its callers (handleFormSubmit in edit mode, and updateQuantity) only
ever pass the fields below, never `id` or `createdAt`.  `none` means the
field is absent from the patch. -/
structure Patch where
  name : Option String := none
  sku : Option String := none
  category : Option String := none
  quantity : Option Int := none
  unit : Option String := none
  notes : Option String := none
deriving Repr, DecidableEq

/-- Embeds generateId: the template string `item_` + Date.now() + `_` + the
random base-36 suffix, with the clock value and the suffix as inputs. -/
def generateId (now : Nat) (rand : String) : String :=
  "item_" ++ toString now ++ "_" ++ rand

/-- Embeds the object spread in updateItem:
braces item, spread updates, updatedAt refreshed to the current time. -/
def applyPatch (it : Item) (p : Patch) (ts : String) : Item :=
  { it with
    name := p.name.getD it.name
    sku := p.sku.getD it.sku
    category := p.category.getD it.category
    quantity := p.quantity.getD it.quantity
    unit := p.unit.getD it.unit
    notes := match p.notes with
      | some v => some v
      | none => it.notes
    updatedAt := some ts }

/-- The record built by addItem in the full variant: the draft fields, a
generated id, and both timestamps set to the current time. -/
def mkNewItem (d : Draft) (now : Nat) (rand : String) (ts : String) : Item :=
  { id := generateId now rand
    name := d.name
    sku := d.sku
    category := d.category
    quantity := d.quantity
    unit := d.unit
    notes := some d.notes
    createdAt := some ts
    updatedAt := some ts }

/-- Embeds addItem of the full variant as a transformer of the inventory
list: builds the new record and unshifts it onto the front. -/
def addItem (d : Draft) (now : Nat) (rand : String) (ts : String)
    (inv : List Item) : List Item :=
  mkNewItem d now rand ts :: inv

/-- The value the JS addItem function itself returns: the function body has
no return statement, so a call evaluates to undefined (here `none`). -/
def addItemReturn (_ : Draft) (_ : Nat) (_ : String) (_ : String)
    (_ : List Item) : Option Item :=
  none

/-- Embeds updateItem of the full variant: findIndex locates the first
record carrying the id; if none exists nothing happens, otherwise that
record is replaced in place by the merge applyPatch. -/
def updateItem (id : String) (p : Patch) (ts : String) : List Item → List Item
  | [] => []
  | it :: rest =>
      if it.id == id then applyPatch it p ts :: rest
      else it :: updateItem id p ts rest

/-- Embeds updateQuantity of the full variant: find the record, and when it
exists delegate to updateItem with quantity Math.max(0, quantity + delta). -/
def updateQuantity (id : String) (delta : Int) (ts : String)
    (inv : List Item) : List Item :=
  match inv.find? (fun it => it.id == id) with
  | none => inv
  | some it =>
      updateItem id { quantity := some (max 0 (it.quantity + delta)) } ts inv

/-- Embeds deleteItem of the full variant: find the record, and when it
exists keep only the records whose id differs. -/
def deleteItem (id : String) (inv : List Item) : List Item :=
  match inv.find? (fun it => it.id == id) with
  | none => inv
  | some _ => inv.filter (fun it => !(it.id == id))

/-- Embeds the JS Set built by iterating a list: keeps the first occurrence
of each element and drops later duplicates, tracking the elements seen so
far. -/
def setDedupAux (seen : List String) : List String → List String
  | [] => []
  | x :: xs =>
      if seen.contains x then setDedupAux seen xs
      else x :: setDedupAux (x :: seen) xs

/-- Embeds the spread of new Set(list): first-occurrence deduplication. -/
def setDedup (xs : List String) : List String :=
  setDedupAux [] xs

/-- Embeds getCategories of the full variant: deduplicate the category
values and sort them; the default JS Array sort on strings is the
lexicographic order, embedded here as an insertion sort, which produces the
same sorted result. -/
def getCategories (inv : List Item) : List String :=
  List.insertionSort (fun a b => a ≤ b) (setDedup (inv.map Item.category))

/-- Embeds getCategories of the scan-only variant: deduplication only, with
no sort call. -/
def getCategoriesScan (inv : List Item) : List String :=
  setDedup (inv.map Item.category)

/-- Embeds JS toLowerCase: lower-cases each character of the string. -/
def jsToLower (s : String) : String :=
  String.mk (s.data.map Char.toLower)

/-- Embeds JS hay.includes(needle): substring containment. -/
def jsIncludes (hay needle : String) : Bool :=
  decide (List.IsInfix needle.toList hay.toList)

/-- Embeds the filter inside renderTable of the full variant: the query is
lower-cased once, and both name and sku are lower-cased before the
substring test; the category must match unless the sentinel `all` is
selected. -/
def filterItems (query category : String) (inv : List Item) : List Item :=
  let q := jsToLower query
  inv.filter (fun it =>
    (jsIncludes (jsToLower it.name) q || jsIncludes (jsToLower it.sku) q) &&
    (category == "all" || it.category == category))

/-- Embeds the filter inside renderTable of the scan-only variant: the sku
is tested without lower-casing it. -/
def filterItemsScan (query category : String) (inv : List Item) : List Item :=
  let q := jsToLower query
  inv.filter (fun it =>
    (jsIncludes (jsToLower it.name) q || jsIncludes it.sku q) &&
    (category == "all" || it.category == category))

/-- Embeds changeQty of the scan-only variant: mutate the first record
carrying the id, clamping the new quantity at zero; no timestamp exists on
these records and none is touched. -/
def changeQty (id : String) (d : Int) : List Item → List Item
  | [] => []
  | it :: rest =>
      if it.id == id then { it with quantity := max 0 (it.quantity + d) } :: rest
      else it :: changeQty id d rest

/-- Embeds the increment branch of onBarcodeDetected: bump the quantity of
the first record whose sku equals the barcode. -/
def bumpFirstSku (barcode : String) : List Item → List Item
  | [] => []
  | it :: rest =>
      if it.sku == barcode then { it with quantity := it.quantity + 1 } :: rest
      else it :: bumpFirstSku barcode rest

/-- The record fabricated by onBarcodeDetected for an unknown barcode:
name Auto Product, category General, quantity 1, unit pcs, and no notes or
timestamp fields. -/
def scanItem (barcode : String) (now : Nat) (rand : String) : Item :=
  { id := generateId now rand
    name := "Auto Product"
    sku := barcode
    category := "General"
    quantity := 1
    unit := "pcs"
    notes := none
    createdAt := none
    updatedAt := none }

/-- Embeds onBarcodeDetected of the scan-only variant when not in cooldown:
increment the first record with a matching sku, otherwise unshift a newly
fabricated record. -/
def onBarcodeDetected (barcode : String) (now : Nat) (rand : String)
    (inv : List Item) : List Item :=
  match inv.find? (fun it => it.sku == barcode) with
  | some _ => bumpFirstSku barcode inv
  | none => scanItem barcode now rand :: inv

/-- A JSON value as handled by the platform JSON.parse and JSON.stringify.
Numbers are restricted to integers, which covers everything this program
ever stores. -/
inductive Json where
  | null
  | bool (b : Bool)
  | num (n : Int)
  | str (s : String)
  | arr (elems : List Json)
  | obj (fields : List (String × Json))

/-- One optional record field of the stored object: JSON.stringify omits
properties holding undefined. -/
def optField (key : String) : Option String → List (String × Json)
  | some v => [(key, Json.str v)]
  | none => []

/-- Embeds JSON.stringify of one record: its fields as a JSON object, with
absent optional fields omitted. -/
def encodeItem (it : Item) : Json :=
  Json.obj (
    [("id", Json.str it.id),
     ("name", Json.str it.name),
     ("sku", Json.str it.sku),
     ("category", Json.str it.category),
     ("quantity", Json.num it.quantity),
     ("unit", Json.str it.unit)]
    ++ optField "notes" it.notes
    ++ optField "createdAt" it.createdAt
    ++ optField "updatedAt" it.updatedAt)

/-- Embeds JSON.stringify of the whole collection: a JSON array of the
encoded records. -/
def encodeInventory (inv : List Item) : Json :=
  Json.arr (inv.map encodeItem)

/-- Reads a string field off a parsed JSON object, as the scripts do when
they access item.name and the other string properties. -/
def getStrField (fields : List (String × Json)) (key : String) : Option String :=
  match fields.lookup key with
  | some (Json.str s) => some s
  | _ => none

/-- Reads a numeric field off a parsed JSON object, as the scripts do when
they access item.quantity. -/
def getNumField (fields : List (String × Json)) (key : String) : Option Int :=
  match fields.lookup key with
  | some (Json.num n) => some n
  | _ => none

/-- Reads a parsed JSON value back as an Item, modelling the field accesses
the scripts perform on loaded records; absent optional fields read back as
`none`. -/
def decodeItem : Json → Option Item
  | Json.obj fields => do
      let id ← getStrField fields "id"
      let name ← getStrField fields "name"
      let sku ← getStrField fields "sku"
      let category ← getStrField fields "category"
      let quantity ← getNumField fields "quantity"
      let unit ← getStrField fields "unit"
      some { id := id, name := name, sku := sku, category := category,
             quantity := quantity, unit := unit,
             notes := getStrField fields "notes",
             createdAt := getStrField fields "createdAt",
             updatedAt := getStrField fields "updatedAt" }
  | _ => none

/-- Reads each element of a parsed JSON array back as an Item, failing as
soon as one element fails. -/
def decodeItemList : List Json → Option (List Item)
  | [] => some []
  | j :: js => do
      let it ← decodeItem j
      let rest ← decodeItemList js
      some (it :: rest)

/-- Reads a parsed JSON value back as the item collection. -/
def decodeItems : Json → Option (List Item)
  | Json.arr elems => decodeItemList elems
  | _ => none

/-- The localStorage slot for the inventory key: either absent, or holding
a string JSON.parse rejects, or holding a string that parses to the JSON
value carried by the constructor. -/
inductive Stored where
  | absent
  | malformed
  | value (v : Json)

/-- Embeds loadInventory of the full variant: the try catch around
JSON.parse turns any decode failure into the empty collection, an absent
slot also yields the empty collection, and the function never throws, so
its result type is a plain value. -/
def loadInventory : Stored → Json
  | Stored.absent => Json.arr []
  | Stored.malformed => Json.arr []
  | Stored.value v => v

/-- JS truthiness of a parsed JSON value, as tested by the logical-or
default in the scan-only loader. -/
def jsTruthy : Json → Bool
  | Json.null => false
  | Json.bool b => b
  | Json.num n => !(n == 0)
  | Json.str s => !(s == "")
  | Json.arr _ => true
  | Json.obj _ => true

/-- Embeds loadInventory of the scan-only variant, which has no try catch:
an absent slot gives JSON.parse(null) = null, defaulted to the empty array
by the logical-or; malformed content makes JSON.parse throw, and the
exception propagates to the caller, hence the Except result type. -/
def loadInventoryScan : Stored → Except String Json
  | Stored.absent => Except.ok (Json.arr [])
  | Stored.malformed => Except.error "SyntaxError"
  | Stored.value v => Except.ok (if jsTruthy v then v else Json.arr [])

/-- Embeds saveInventory (identical in both variants): the slot receives
JSON.stringify of the current collection. -/
def saveInventory (inv : List Item) : Stored :=
  Stored.value (encodeInventory inv)

/-- Stated from the spec for comparison: case-insensitive substring match
of the needle against the hay. -/
def ciContains (hay needle : String) : Bool :=
  decide (List.IsInfix (jsToLower needle).toList (jsToLower hay).toList)

/-- Stated from the spec for comparison: the filter predicate of the spec,
a case-insensitive substring match of the query against name or sku, and a
category equality test unless the sentinel `all` is selected. -/
def specMatches (query category : String) (it : Item) : Bool :=
  (ciContains it.name query || ciContains it.sku query) &&
  (category == "all" || it.category == category)

/-- The predicate the scan-only variant actually applies: the name test is
case-insensitive but the sku is compared raw against the lower-cased
query. -/
def scanMatches (query category : String) (it : Item) : Bool :=
  (jsIncludes (jsToLower it.name) (jsToLower query)
    || jsIncludes it.sku (jsToLower query)) &&
  (category == "all" || it.category == category)

/-- One store operation of the full variant, with the environment inputs
each operation consumes. -/
inductive Op where
  | add (d : Draft) (now : Nat) (rand : String) (ts : String)
  | update (id : String) (p : Patch) (ts : String)
  | adjust (id : String) (delta : Int) (ts : String)
  | remove (id : String)
deriving Repr, DecidableEq

/-- Applies one operation to the in-memory collection. -/
def applyOp (inv : List Item) : Op → List Item
  | Op.add d now rand ts => addItem d now rand ts inv
  | Op.update id p ts => updateItem id p ts inv
  | Op.adjust id delta ts => updateQuantity id delta ts inv
  | Op.remove id => deleteItem id inv

/-- Runs a sequence of operations from the empty collection. -/
def runOps (ops : List Op) : List Item :=
  ops.foldl applyOp []

/-- A patch respects the data model typing of quantity: when it sets the
field, the value is non-negative. -/
def patchQuantOk (p : Patch) : Bool :=
  match p.quantity with
  | some q => decide (0 ≤ q)
  | none => true

/-- An operation respects the data model typing of quantity: an add draft
carries a non-negative quantity and an update patch sets only non-negative
quantities; adjust and remove take no quantity input (the adjust delta may
be any integer). -/
def opQuantOk : Op → Bool
  | Op.add d _ _ _ => decide (0 ≤ d.quantity)
  | Op.update _ p _ => patchQuantOk p
  | Op.adjust _ _ _ => true
  | Op.remove _ => true

/-- The ids generated by the add operations of a trace, in order. -/
def addIds : List Op → List String
  | [] => []
  | Op.add _ now rand _ :: rest => generateId now rand :: addIds rest
  | Op.update _ _ _ :: rest => addIds rest
  | Op.adjust _ _ _ :: rest => addIds rest
  | Op.remove _ :: rest => addIds rest

example : generateId 7 "ab" = "item_7_ab" := by decide

example : changeQty "a" (-5)
    [{ id := "a", name := "n", sku := "s", category := "c", quantity := 2,
       unit := "u", notes := none, createdAt := none, updatedAt := none }]
    = [{ id := "a", name := "n", sku := "s", category := "c", quantity := 0,
         unit := "u", notes := none, createdAt := none, updatedAt := none }] := by
  decide

/-- A sample record in the shape the full variant creates. -/
def itemW1 : Item :=
  { id := "item_1_aa", name := "Widget", sku := "W-1", category := "Tools",
    quantity := 3, unit := "pcs", notes := some "", createdAt := some "t1",
    updatedAt := some "t1" }

/-- A sample record in the shape the scan-only variant creates. -/
def itemW2 : Item :=
  { id := "item_2_bb", name := "Bolt", sku := "B-2", category := "Parts",
    quantity := 2, unit := "pcs", notes := none, createdAt := none,
    updatedAt := none }

/-- A sample record whose id happens to equal generateId 0 aa. -/
def itemCollide : Item :=
  { id := "item_0_aa", name := "Old", sku := "W-1", category := "Tools",
    quantity := 4, unit := "pcs", notes := none, createdAt := none,
    updatedAt := none }

/-- A sample record with category B, listed before the category A one. -/
def itemCatB : Item :=
  { id := "item_3_cc", name := "Bee", sku := "B-3", category := "B",
    quantity := 1, unit := "pcs", notes := none, createdAt := none,
    updatedAt := none }

/-- A sample record with category A, listed after the category B one. -/
def itemCatA : Item :=
  { id := "item_4_dd", name := "Ay", sku := "A-4", category := "A",
    quantity := 1, unit := "pcs", notes := none, createdAt := none,
    updatedAt := none }

/-- A sample record whose sku is upper-case. -/
def itemSkuCaps : Item :=
  { id := "item_5_ee", name := "x", sku := "ABC", category := "General",
    quantity := 1, unit := "pcs", notes := none, createdAt := none,
    updatedAt := none }

/-- A sample draft. -/
def draftW : Draft :=
  { name := "Widget", sku := "W-1", category := "Tools", quantity := 3,
    unit := "pcs", notes := "" }

/-! ## Persistence round trip -/

/-- Decoding one encoded record recovers it exactly. -/
theorem decodeItem_encodeItem (it : Item) : decodeItem (encodeItem it) = some it := by
  cases it with
  | mk id name sku category quantity unit notes createdAt updatedAt =>
    cases notes <;> cases createdAt <;> cases updatedAt <;>
      simp [encodeItem, decodeItem, optField, getStrField, getNumField, List.lookup]

/-- Decoding the encoded collection recovers it exactly. -/
theorem decodeItems_encodeInventory (l : List Item) :
    decodeItems (encodeInventory l) = some l := by
  induction l with
  | nil => rfl
  | cons x xs ih =>
      simp only [encodeInventory, decodeItems, List.map_cons, decodeItemList,
        decodeItem_encodeItem] at *
      simp [ih]

/-- C1 counterexample: in the scan-only variant, loading malformed stored
content raises the JSON parse exception to the caller instead of returning
an empty collection, because that loader has no try catch. -/
theorem loadScan_raises_on_malformed :
    loadInventoryScan Stored.malformed = Except.error "SyntaxError" := rfl

/-- C1 (amended): the full-variant loader returns the empty collection on
an absent slot and on malformed content and never throws, and returns the
decoded items on well-formed content; the scan-only loader returns the
empty collection on an absent slot and the decoded items on well-formed
content, but propagates the decode exception on malformed content. -/
theorem load_contract (l : List Item) :
    loadInventory Stored.absent = Json.arr []
    ∧ loadInventory Stored.malformed = Json.arr []
    ∧ decodeItems (loadInventory (saveInventory l)) = some l
    ∧ decodeItems (Json.arr []) = some []
    ∧ loadInventoryScan Stored.absent = Except.ok (Json.arr [])
    ∧ loadInventoryScan Stored.malformed = Except.error "SyntaxError"
    ∧ loadInventoryScan (saveInventory l) = Except.ok (encodeInventory l) := by
  refine ⟨rfl, rfl, ?_, rfl, rfl, rfl, ?_⟩
  · simpa [loadInventory, saveInventory] using decodeItems_encodeInventory l
  · simp [loadInventoryScan, saveInventory, jsTruthy, encodeInventory]

/-- C9: saving the current collection and loading it back yields a
collection equal to the original, item by item, on the id and every field;
in the scan-only variant the loader returns exactly the stored encoding,
which decodes to the same collection. -/
theorem persistence_roundtrip (l : List Item) :
    decodeItems (loadInventory (saveInventory l)) = some l
    ∧ loadInventoryScan (saveInventory l) = Except.ok (encodeInventory l)
    ∧ decodeItems (encodeInventory l) = some l := by
  refine ⟨?_, ?_, decodeItems_encodeInventory l⟩
  · simpa [loadInventory, saveInventory] using decodeItems_encodeInventory l
  · simp [loadInventoryScan, saveInventory, jsTruthy, encodeInventory]

/-! ## First-match characterizations of the id-addressed operations -/

/-- find? returns the head of the first matching suffix. -/
theorem find?_append_first (p : Item → Bool) (pre : List Item) (it : Item)
    (post : List Item) (hpre : ∀ x ∈ pre, p x = false) (hit : p it = true) :
    (pre ++ it :: post).find? p = some it := by
  induction pre with
  | nil => simp [List.find?_cons_of_pos, hit]
  | cons y ys ih =>
      have hy : p y = false := hpre y (by simp)
      simpa [List.find?_cons_of_neg, hy] using
        ih (fun x hx => hpre x (by simp [hx]))

/-- updateItem is the identity when no record carries the id. -/
theorem updateItem_of_not_mem (id : String) (p : Patch) (ts : String) :
    ∀ inv : List Item, (∀ it ∈ inv, it.id ≠ id) → updateItem id p ts inv = inv := by
  intro inv h
  induction inv with
  | nil => rfl
  | cons it rest ih =>
      have hid : ¬ it.id = id := h it (by simp)
      simp only [updateItem, beq_iff_eq, hid, if_false]
      exact congrArg _ (ih (fun x hx => h x (by simp [hx])))

/-- updateItem replaces exactly the first record carrying the id, keeping
its position and every other record. -/
theorem updateItem_found (id : String) (p : Patch) (ts : String)
    (pre : List Item) (it : Item) (post : List Item)
    (hpre : ∀ x ∈ pre, x.id ≠ id) (hit : it.id = id) :
    updateItem id p ts (pre ++ it :: post) = pre ++ applyPatch it p ts :: post := by
  induction pre with
  | nil => simp [updateItem, hit]
  | cons y ys ih =>
      have hy : ¬ y.id = id := hpre y (by simp)
      simp only [List.cons_append, updateItem, beq_iff_eq, hy, if_false]
      exact congrArg _ (ih (fun x hx => hpre x (by simp [hx])))

/-- changeQty is the identity when no record carries the id. -/
theorem changeQty_of_not_mem (id : String) (d : Int) :
    ∀ inv : List Item, (∀ it ∈ inv, it.id ≠ id) → changeQty id d inv = inv := by
  intro inv h
  induction inv with
  | nil => rfl
  | cons it rest ih =>
      have hid : ¬ it.id = id := h it (by simp)
      simp only [changeQty, beq_iff_eq, hid, if_false]
      exact congrArg _ (ih (fun x hx => h x (by simp [hx])))

/-- changeQty clamps exactly the first record carrying the id, keeping its
position and every other record. -/
theorem changeQty_found (id : String) (d : Int)
    (pre : List Item) (it : Item) (post : List Item)
    (hpre : ∀ x ∈ pre, x.id ≠ id) (hit : it.id = id) :
    changeQty id d (pre ++ it :: post)
      = pre ++ { it with quantity := max 0 (it.quantity + d) } :: post := by
  induction pre with
  | nil => simp [changeQty, hit]
  | cons y ys ih =>
      have hy : ¬ y.id = id := hpre y (by simp)
      simp only [List.cons_append, changeQty, beq_iff_eq, hy, if_false]
      exact congrArg _ (ih (fun x hx => hpre x (by simp [hx])))

/-- updateQuantity is the identity when no record carries the id. -/
theorem updateQuantity_of_not_mem (id : String) (delta : Int) (ts : String)
    (inv : List Item) (h : ∀ it ∈ inv, it.id ≠ id) :
    updateQuantity id delta ts inv = inv := by
  have hfind : inv.find? (fun it => it.id == id) = none :=
    List.find?_eq_none.mpr (fun x hx => by simpa using h x hx)
  simp [updateQuantity, hfind]

/-- updateQuantity clamps exactly the first record carrying the id,
refreshing its updatedAt and keeping its position and every other
record. -/
theorem updateQuantity_found (id : String) (delta : Int) (ts : String)
    (pre : List Item) (it : Item) (post : List Item)
    (hpre : ∀ x ∈ pre, x.id ≠ id) (hit : it.id = id) :
    updateQuantity id delta ts (pre ++ it :: post)
      = pre ++ { it with quantity := max 0 (it.quantity + delta),
                          updatedAt := some ts } :: post := by
  have hfind : (pre ++ it :: post).find? (fun x => x.id == id) = some it :=
    find?_append_first _ pre it post (fun x hx => by simpa using hpre x hx)
      (by simpa using hit)
  simp only [updateQuantity, hfind]
  exact updateItem_found id _ ts pre it post hpre hit

/-- C2: adjustQuantity (updateQuantity in the full variant, changeQty in
the scan-only variant) is a no-op when no record carries the id; otherwise
it sets the first matching record quantity to max(0, q + delta), which is
never negative, leaving every other record in place; the full variant also
refreshes updatedAt per the update semantics. -/
theorem adjustQuantity_spec (id : String) (delta : Int) (ts : String)
    (inv : List Item) :
    ((∀ it ∈ inv, it.id ≠ id) →
        updateQuantity id delta ts inv = inv ∧ changeQty id delta inv = inv)
    ∧ (∀ pre it post, inv = pre ++ it :: post →
        (∀ x ∈ pre, x.id ≠ id) → it.id = id →
        updateQuantity id delta ts inv
          = pre ++ { it with quantity := max 0 (it.quantity + delta),
                              updatedAt := some ts } :: post
        ∧ changeQty id delta inv
          = pre ++ { it with quantity := max 0 (it.quantity + delta) } :: post
        ∧ 0 ≤ max 0 (it.quantity + delta)) := by
  constructor
  · intro h
    exact ⟨updateQuantity_of_not_mem id delta ts inv h,
           changeQty_of_not_mem id delta inv h⟩
  · intro pre it post heq hpre hit
    subst heq
    exact ⟨updateQuantity_found id delta ts pre it post hpre hit,
           changeQty_found id delta pre it post hpre hit,
           le_max_left 0 _⟩

/-- Witness for C2 at a concrete input: dropping quantity 2 by 5 clamps the
second record at 0 and refreshes its timestamp. -/
theorem adjustQuantity_spec_witness :
    updateQuantity "item_2_bb" (-5) "t2" [itemW1, itemW2]
      = [itemW1, { itemW2 with quantity := max 0 (itemW2.quantity + (-5)),
                                updatedAt := some "t2" }] :=
  ((adjustQuantity_spec "item_2_bb" (-5) "t2" [itemW1, itemW2]).2
    [itemW1] itemW2 [] rfl (by decide) (by decide)).1

/-- C7: update is a silent no-op when no record carries the id; otherwise
it merges the patch fields into the first matching record via applyPatch,
refreshes its updatedAt, preserves its id and createdAt, keeps the record
at its existing position and leaves every other record unchanged. -/
theorem update_spec (id : String) (p : Patch) (ts : String) (inv : List Item) :
    ((∀ it ∈ inv, it.id ≠ id) → updateItem id p ts inv = inv)
    ∧ (∀ pre it post, inv = pre ++ it :: post →
        (∀ x ∈ pre, x.id ≠ id) → it.id = id →
        updateItem id p ts inv = pre ++ applyPatch it p ts :: post
        ∧ (applyPatch it p ts).updatedAt = some ts
        ∧ (applyPatch it p ts).id = it.id
        ∧ (applyPatch it p ts).createdAt = it.createdAt) := by
  constructor
  · exact updateItem_of_not_mem id p ts inv
  · intro pre it post heq hpre hit
    subst heq
    exact ⟨updateItem_found id p ts pre it post hpre hit, rfl, rfl, rfl⟩

/-- Witness for C7 at a concrete input: renaming the first record merges
the name field, keeps its position, and leaves the second record alone. -/
theorem update_spec_witness :
    updateItem "item_1_aa" { name := some "Gadget" } "t3" [itemW1, itemW2]
      = [applyPatch itemW1 { name := some "Gadget" } "t3", itemW2] :=
  ((update_spec "item_1_aa" { name := some "Gadget" } "t3" [itemW1, itemW2]).2
    [] itemW1 [itemW2] rfl (by decide) (by decide)).1

/-! ## Deduplication and sorting of the category view -/

/-- Everything setDedupAux produces comes from its input list. -/
theorem mem_of_mem_setDedupAux :
    ∀ (xs seen : List String) (a : String), a ∈ setDedupAux seen xs → a ∈ xs := by
  intro xs
  induction xs with
  | nil => intro seen a h; simp [setDedupAux] at h
  | cons x rest ih =>
      intro seen a h
      cases hc : seen.contains x <;> simp only [setDedupAux, hc] at h
      · simp only [Bool.false_eq_true, if_false] at h
        rcases List.mem_cons.mp h with h1 | h2
        · simp [h1]
        · exact List.mem_cons_of_mem _ (ih _ a h2)
      · simp only [if_true] at h
        exact List.mem_cons_of_mem _ (ih _ a h)

/-- setDedupAux never emits an element it has already seen. -/
theorem setDedupAux_not_mem_seen :
    ∀ (xs seen : List String) (a : String), a ∈ seen → a ∉ setDedupAux seen xs := by
  intro xs
  induction xs with
  | nil => intro seen a _ h; simp [setDedupAux] at h
  | cons x rest ih =>
      intro seen a ha h
      cases hc : seen.contains x <;> simp only [setDedupAux, hc] at h
      · simp only [Bool.false_eq_true, if_false] at h
        rcases List.mem_cons.mp h with h1 | h2
        · rw [h1] at ha
          exact absurd ha (show x ∉ seen by simpa [List.contains] using hc)
        · exact ih (x :: seen) a (List.mem_cons_of_mem _ ha) h2
      · simp only [if_true] at h
        exact ih seen a ha h

/-- setDedupAux emits no duplicates. -/
theorem setDedupAux_nodup : ∀ (xs seen : List String), (setDedupAux seen xs).Nodup := by
  intro xs
  induction xs with
  | nil => intro seen; simp [setDedupAux]
  | cons x rest ih =>
      intro seen
      cases hc : seen.contains x <;> simp only [setDedupAux, hc]
      · simp only [Bool.false_eq_true, if_false]
        exact List.nodup_cons.mpr
          ⟨setDedupAux_not_mem_seen rest (x :: seen) x (by simp), ih (x :: seen)⟩
      · simp only [if_true]
        exact ih seen

/-- setDedupAux keeps every element it has not yet seen. -/
theorem mem_setDedupAux_of_mem :
    ∀ (xs seen : List String) (a : String), a ∈ xs → a ∉ seen →
      a ∈ setDedupAux seen xs := by
  intro xs
  induction xs with
  | nil => intro seen a h _; simp at h
  | cons x rest ih =>
      intro seen a h hns
      cases hc : seen.contains x <;> simp only [setDedupAux, hc]
      · simp only [Bool.false_eq_true, if_false]
        rcases List.mem_cons.mp h with h1 | h2
        · simp [h1]
        · by_cases hax : a = x
          · simp [hax]
          · exact List.mem_cons_of_mem _
              (ih (x :: seen) a h2 (by simp [hax, hns]))
      · simp only [if_true]
        rcases List.mem_cons.mp h with h1 | h2
        · rw [h1] at hns
          exact absurd (show x ∈ seen by simpa [List.contains] using hc) hns
        · exact ih seen a h2 hns

/-- setDedup emits no duplicates. -/
theorem setDedup_nodup (xs : List String) : (setDedup xs).Nodup :=
  setDedupAux_nodup xs []

/-- setDedup has exactly the members of its input. -/
theorem mem_setDedup (a : String) (xs : List String) :
    a ∈ setDedup xs ↔ a ∈ xs :=
  ⟨fun h => mem_of_mem_setDedupAux xs [] a h,
   fun h => mem_setDedupAux_of_mem xs [] a h (by simp)⟩

/-- C4 counterexample: the scan-only getCategories never sorts, so on a
collection whose categories appear as B then A it returns B before A,
which is not ascending lexicographic order. -/
theorem categoriesScan_unsorted :
    getCategoriesScan [itemCatB, itemCatA] = ["B", "A"]
    ∧ ¬ List.Sorted (fun a b => a ≤ b) (getCategoriesScan [itemCatB, itemCatA]) := by
  constructor
  · rfl
  · intro h
    have h1 : getCategoriesScan [itemCatB, itemCatA] = ["B", "A"] := rfl
    rw [h1] at h
    have h2 : ("B" : String) ≤ "A" :=
      List.rel_of_sorted_cons h "A" (by simp)
    exact absurd h2 (not_le.mpr (String.lt_iff_toList_lt.mpr (by decide)))

/-- C4 (amended): the full-variant getCategories returns the distinct
category values with no duplicates, sorted lexicographically ascending;
the scan-only getCategories returns the distinct category values with no
duplicates, in first-occurrence order, without sorting. -/
theorem categories_spec (inv : List Item) :
    (getCategories inv).Nodup
    ∧ List.Sorted (fun a b => a ≤ b) (getCategories inv)
    ∧ (∀ c, c ∈ getCategories inv ↔ c ∈ inv.map Item.category)
    ∧ (getCategoriesScan inv).Nodup
    ∧ (∀ c, c ∈ getCategoriesScan inv ↔ c ∈ inv.map Item.category) := by
  have hperm := List.perm_insertionSort (fun a b => a ≤ b)
    (setDedup (inv.map Item.category))
  refine ⟨?_, ?_, ?_, setDedup_nodup _, fun c => mem_setDedup c _⟩
  · exact hperm.nodup_iff.mpr (setDedup_nodup _)
  · exact List.sorted_insertionSort _ _
  · intro c
    rw [getCategories, hperm.mem_iff]
    exact mem_setDedup c _

/-- C5 counterexample: the scan-only filter lower-cases the query but not
the sku, so the query ABC fails to match the sku ABC even though the
claimed case-insensitive predicate matches it. -/
theorem filterScan_misses_upper_sku :
    specMatches "ABC" "all" itemSkuCaps = true
    ∧ filterItemsScan "ABC" "all" [itemSkuCaps] = [] := by
  constructor
  · decide
  · decide

/-- C5 (amended): the full-variant filter returns exactly the records
matching the spec predicate (case-insensitive substring of the query in
name or sku, and the category test with the sentinel all), preserving
collection order; the scan-only filter instead compares the lower-cased
query against the raw sku, so its sku test is case-sensitive. -/
theorem filter_spec (query category : String) (inv : List Item) :
    filterItems query category inv = inv.filter (specMatches query category)
    ∧ filterItemsScan query category inv = inv.filter (scanMatches query category) := by
  exact ⟨rfl, rfl⟩

/-- bumpFirstSku increments exactly the first record carrying the sku,
keeping its position and every other record. -/
theorem bumpFirstSku_found (barcode : String)
    (pre : List Item) (it : Item) (post : List Item)
    (hpre : ∀ x ∈ pre, x.sku ≠ barcode) (hit : it.sku = barcode) :
    bumpFirstSku barcode (pre ++ it :: post)
      = pre ++ { it with quantity := it.quantity + 1 } :: post := by
  induction pre with
  | nil => simp [bumpFirstSku, hit]
  | cons y ys ih =>
      have hy : ¬ y.sku = barcode := hpre y (by simp)
      simp only [List.cons_append, bumpFirstSku, beq_iff_eq, hy, if_false]
      exact congrArg _ (ih (fun x hx => hpre x (by simp [hx])))

/-- C6 counterexample: with clock value 0 and random suffix aa the
generated id equals the id of a record already in the collection, so the
created id is not fresh; moreover the JS addItem function has no return
statement, so it returns undefined rather than the created record. -/
theorem addItem_fresh_id_fails :
    (mkNewItem draftW 0 "aa" "t0").id = itemCollide.id
    ∧ addItem draftW 0 "aa" "t0" [itemCollide]
        = mkNewItem draftW 0 "aa" "t0" :: [itemCollide]
    ∧ addItemReturn draftW 0 "aa" "t0" [itemCollide] = none := by
  exact ⟨by decide, rfl, rfl⟩

/-- C6 (amended): addItem prepends exactly one new record whose id is the
generated value, whose createdAt and updatedAt both equal the current
timestamp, and whose quantity equals the draft quantity; the new id
differs from every existing id provided the generated value does not
already occur in the collection (the generator never checks this); the JS
function itself returns undefined, the created record being the new head
of the collection. -/
theorem addItem_spec (d : Draft) (now : Nat) (rand : String) (ts : String)
    (inv : List Item) (h : generateId now rand ∉ inv.map Item.id) :
    addItem d now rand ts inv = mkNewItem d now rand ts :: inv
    ∧ (mkNewItem d now rand ts).id ∉ inv.map Item.id
    ∧ (mkNewItem d now rand ts).quantity = d.quantity
    ∧ (mkNewItem d now rand ts).createdAt = some ts
    ∧ (mkNewItem d now rand ts).updatedAt = some ts
    ∧ addItemReturn d now rand ts inv = none :=
  ⟨rfl, h, rfl, rfl, rfl, rfl⟩

/-- Witness for C6 at a concrete input: a non-colliding environment adds a
fresh record at the front. -/
theorem addItem_spec_witness :
    generateId 9 "zz" ∉ [itemW1].map Item.id
    ∧ addItem draftW 9 "zz" "t9" [itemW1]
        = mkNewItem draftW 9 "zz" "t9" :: [itemW1]
    ∧ (mkNewItem draftW 9 "zz" "t9").id ∉ [itemW1].map Item.id := by
  have h : generateId 9 "zz" ∉ [itemW1].map Item.id := by decide
  have hs := addItem_spec draftW 9 "zz" "t9" [itemW1] h
  exact ⟨h, hs.1, hs.2.1⟩

/-- C10 counterexample: with clock value 0 and random suffix aa the record
fabricated for an unknown barcode receives an id equal to one already in
the collection, so the inserted id is not fresh. -/
theorem scan_fresh_id_fails :
    (scanItem "B-9" 0 "aa").id = itemCollide.id
    ∧ onBarcodeDetected "B-9" 0 "aa" [itemCollide]
        = scanItem "B-9" 0 "aa" :: [itemCollide] := by
  exact ⟨by decide, by decide⟩

/-- C10 (amended): when not in cooldown and no record carries the scanned
sku, onBarcodeDetected unshifts exactly one fabricated record with name
Auto Product, sku equal to the barcode, category General, quantity 1, unit
pcs, no notes and no timestamp fields, whose generated id is new provided
the generated value does not already occur in the collection (the
generator never checks this); when some record carries the sku, the first
such record has its quantity incremented by exactly one and every other
record is unchanged. -/
theorem scan_spec (barcode : String) (now : Nat) (rand : String)
    (inv : List Item) :
    ((∀ it ∈ inv, it.sku ≠ barcode) →
        onBarcodeDetected barcode now rand inv
          = scanItem barcode now rand :: inv
        ∧ (scanItem barcode now rand).name = "Auto Product"
        ∧ (scanItem barcode now rand).sku = barcode
        ∧ (scanItem barcode now rand).category = "General"
        ∧ (scanItem barcode now rand).quantity = 1
        ∧ (scanItem barcode now rand).unit = "pcs"
        ∧ (scanItem barcode now rand).notes = none
        ∧ (scanItem barcode now rand).createdAt = none
        ∧ (scanItem barcode now rand).updatedAt = none
        ∧ (generateId now rand ∉ inv.map Item.id →
            (scanItem barcode now rand).id ∉ inv.map Item.id))
    ∧ (∀ pre it post, inv = pre ++ it :: post →
        (∀ x ∈ pre, x.sku ≠ barcode) → it.sku = barcode →
        onBarcodeDetected barcode now rand inv
          = pre ++ { it with quantity := it.quantity + 1 } :: post) := by
  constructor
  · intro h
    have hfind : inv.find? (fun it => it.sku == barcode) = none :=
      List.find?_eq_none.mpr (fun x hx => by simpa using h x hx)
    exact ⟨by simp [onBarcodeDetected, hfind], rfl, rfl, rfl, rfl, rfl, rfl,
      rfl, rfl, fun hf => hf⟩
  · intro pre it post heq hpre hit
    subst heq
    have hfind := find?_append_first (fun x => x.sku == barcode) pre it post
      (fun x hx => by simpa using hpre x hx) (by simpa using hit)
    simp only [onBarcodeDetected, hfind]
    exact bumpFirstSku_found barcode pre it post hpre hit

/-- Witness for C10 at a concrete input: scanning the sku of the second
record increments it by one and leaves the first record unchanged. -/
theorem scan_spec_witness :
    onBarcodeDetected "B-2" 3 "ff" [itemW1, itemW2]
      = [itemW1] ++ { itemW2 with quantity := itemW2.quantity + 1 } :: [] :=
  (scan_spec "B-2" 3 "ff" [itemW1, itemW2]).2 [itemW1] itemW2 []
    rfl (by decide) (by decide)

/-! ## Reachable-state invariants -/

/-- Extracts the bound from a patch that respects the quantity typing. -/
theorem patchQuantOk_le (p : Patch) (hp : patchQuantOk p = true) (q : Int)
    (hq : p.quantity = some q) : 0 ≤ q := by
  simp only [patchQuantOk, hq] at hp
  exact of_decide_eq_true hp

/-- updateItem keeps every quantity non-negative when the patch respects
the quantity typing. -/
theorem updateItem_nonneg (id : String) (p : Patch) (ts : String)
    (hp : patchQuantOk p = true) :
    ∀ inv : List Item, (∀ it ∈ inv, 0 ≤ it.quantity) →
      ∀ it ∈ updateItem id p ts inv, 0 ≤ it.quantity := by
  intro inv
  induction inv with
  | nil => intro _ it h; simp [updateItem] at h
  | cons y ys ih =>
      intro hinv it hit
      by_cases hy : y.id = id
      · simp only [updateItem, beq_iff_eq, hy, if_true, List.mem_cons] at hit
        rcases hit with h1 | h2
        · rw [h1]
          cases hq : p.quantity with
          | some q => simpa [applyPatch, hq] using patchQuantOk_le p hp q hq
          | none => simpa [applyPatch, hq] using hinv y (by simp)
        · exact hinv it (by simp [h2])
      · simp only [updateItem, beq_iff_eq, hy, if_false, List.mem_cons] at hit
        rcases hit with h1 | h2
        · rw [h1]; exact hinv y (by simp)
        · exact ih (fun x hx => hinv x (by simp [hx])) it h2

/-- updateQuantity keeps every quantity non-negative, for any delta. -/
theorem updateQuantity_nonneg (id : String) (delta : Int) (ts : String)
    (inv : List Item) (hinv : ∀ it ∈ inv, 0 ≤ it.quantity) :
    ∀ it ∈ updateQuantity id delta ts inv, 0 ≤ it.quantity := by
  cases hfind : inv.find? (fun it => it.id == id) with
  | none => intro it hit; exact hinv it (by simpa [updateQuantity, hfind] using hit)
  | some y =>
      intro it hit
      simp only [updateQuantity, hfind] at hit
      refine updateItem_nonneg id _ ts ?_ inv hinv it hit
      simp only [patchQuantOk, decide_eq_true_eq]
      exact le_max_left 0 _

/-- deleteItem only ever keeps records of the input collection. -/
theorem deleteItem_subset (id : String) (inv : List Item) :
    ∀ it ∈ deleteItem id inv, it ∈ inv := by
  cases hfind : inv.find? (fun it => it.id == id) with
  | none => intro it hit; simpa [deleteItem, hfind] using hit
  | some y =>
      intro it hit
      simp only [deleteItem, hfind] at hit
      exact List.mem_of_mem_filter hit

/-- bumpFirstSku keeps every quantity non-negative. -/
theorem bumpFirstSku_nonneg (barcode : String) :
    ∀ inv : List Item, (∀ it ∈ inv, 0 ≤ it.quantity) →
      ∀ it ∈ bumpFirstSku barcode inv, 0 ≤ it.quantity := by
  intro inv
  induction inv with
  | nil => intro _ it h; simp [bumpFirstSku] at h
  | cons y ys ih =>
      intro hinv it hit
      by_cases hy : y.sku = barcode
      · simp only [bumpFirstSku, beq_iff_eq, hy, if_true, List.mem_cons] at hit
        rcases hit with h1 | h2
        · rw [h1]
          have h0 : (0 : Int) ≤ y.quantity := hinv y (by simp)
          simpa using add_nonneg h0 zero_le_one
        · exact hinv it (by simp [h2])
      · simp only [bumpFirstSku, beq_iff_eq, hy, if_false, List.mem_cons] at hit
        rcases hit with h1 | h2
        · rw [h1]; exact hinv y (by simp)
        · exact ih (fun x hx => hinv x (by simp [hx])) it h2

/-- onBarcodeDetected keeps every quantity non-negative. -/
theorem onBarcode_nonneg (barcode : String) (now : Nat) (rand : String)
    (inv : List Item) (hinv : ∀ it ∈ inv, 0 ≤ it.quantity) :
    ∀ it ∈ onBarcodeDetected barcode now rand inv, 0 ≤ it.quantity := by
  cases hfind : inv.find? (fun it => it.sku == barcode) with
  | none =>
      intro it hit
      simp only [onBarcodeDetected, hfind] at hit
      rcases List.mem_cons.mp hit with h1 | h2
      · rw [h1]; exact zero_le_one
      · exact hinv it h2
  | some y =>
      intro it hit
      simp only [onBarcodeDetected, hfind] at hit
      exact bumpFirstSku_nonneg barcode inv hinv it hit

/-- The quantity invariant is preserved along any trace whose operations
respect the quantity typing, from any state satisfying it. -/
theorem runOps_go_nonneg :
    ∀ (ops : List Op) (inv : List Item),
      (∀ op ∈ ops, opQuantOk op = true) → (∀ it ∈ inv, 0 ≤ it.quantity) →
      ∀ it ∈ ops.foldl applyOp inv, 0 ≤ it.quantity := by
  intro ops
  induction ops with
  | nil => intro inv _ hinv; simpa using hinv
  | cons op rest ih =>
      intro inv hops hinv
      have hop : opQuantOk op = true := hops op (by simp)
      have hrest : ∀ o ∈ rest, opQuantOk o = true :=
        fun o ho => hops o (by simp [ho])
      rw [List.foldl_cons]
      apply ih _ hrest
      cases op with
      | add d now rand ts =>
          intro it hit
          simp only [applyOp, addItem, List.mem_cons] at hit
          rcases hit with h1 | h2
          · rw [h1]
            simp only [opQuantOk] at hop
            exact of_decide_eq_true hop
          · exact hinv it h2
      | update id p ts =>
          exact updateItem_nonneg id p ts (by simpa [opQuantOk] using hop) inv hinv
      | adjust id delta ts =>
          exact updateQuantity_nonneg id delta ts inv hinv
      | remove id =>
          intro it hit
          exact hinv it (deleteItem_subset id inv it hit)

/-- C3: every collection state reachable from the empty collection by
store operations whose inputs respect the data model typing of quantity
(drafts and patches carry non-negative quantities; the adjust delta is an
arbitrary integer) contains only non-negative quantities: the decrementing
operation clamps at zero and no operation drives a quantity below zero;
the scan-only barcode handler preserves the invariant as well. -/
theorem quantity_invariant (ops : List Op)
    (h : ∀ op ∈ ops, opQuantOk op = true) :
    (∀ it ∈ runOps ops, 0 ≤ it.quantity)
    ∧ (∀ (inv : List Item) (barcode : String) (now : Nat) (rand : String),
        (∀ it ∈ inv, 0 ≤ it.quantity) →
        ∀ it ∈ onBarcodeDetected barcode now rand inv, 0 ≤ it.quantity) := by
  constructor
  · exact runOps_go_nonneg ops [] h (by simp)
  · exact fun inv barcode now rand hinv => onBarcode_nonneg barcode now rand inv hinv

/-- Witness for C3 at a concrete input: an add of quantity 3 followed by an
adjust of minus seven keeps every quantity non-negative. -/
theorem quantity_invariant_witness :
    (∀ op ∈ [Op.add draftW 1 "aa" "t1", Op.adjust "item_1_aa" (-7) "t2"],
      opQuantOk op = true)
    ∧ (∀ it ∈ runOps [Op.add draftW 1 "aa" "t1", Op.adjust "item_1_aa" (-7) "t2"],
        0 ≤ it.quantity) := by
  have h : ∀ op ∈ [Op.add draftW 1 "aa" "t1", Op.adjust "item_1_aa" (-7) "t2"],
      opQuantOk op = true := by decide
  exact ⟨h, (quantity_invariant _ h).1⟩

/-- updateItem leaves the id of every record, and the record order,
unchanged. -/
theorem updateItem_map_id (id : String) (p : Patch) (ts : String) :
    ∀ inv : List Item, (updateItem id p ts inv).map Item.id = inv.map Item.id := by
  intro inv
  induction inv with
  | nil => rfl
  | cons y ys ih =>
      by_cases hy : y.id = id
      · simp [updateItem, hy, applyPatch]
      · simp [updateItem, hy, ih]

/-- updateQuantity leaves the id of every record, and the record order,
unchanged. -/
theorem updateQuantity_map_id (id : String) (delta : Int) (ts : String)
    (inv : List Item) :
    (updateQuantity id delta ts inv).map Item.id = inv.map Item.id := by
  cases hfind : inv.find? (fun it => it.id == id) <;>
    simp [updateQuantity, hfind, updateItem_map_id]

/-- changeQty leaves the id of every record, and the record order,
unchanged. -/
theorem changeQty_map_id (id : String) (d : Int) :
    ∀ inv : List Item, (changeQty id d inv).map Item.id = inv.map Item.id := by
  intro inv
  induction inv with
  | nil => rfl
  | cons y ys ih =>
      by_cases hy : y.id = id
      · simp [changeQty, hy]
      · simp [changeQty, hy, ih]

/-- The ids surviving deleteItem form a sublist of the previous ids. -/
theorem deleteItem_map_id_sublist (id : String) (inv : List Item) :
    List.Sublist ((deleteItem id inv).map Item.id) (inv.map Item.id) := by
  cases hfind : inv.find? (fun it => it.id == id) with
  | none => simp [deleteItem, hfind]
  | some y =>
      simp only [deleteItem, hfind]
      exact (List.filter_sublist inv).map Item.id

/-- Distinctness of ids is preserved along any trace whose add operations
generate pairwise distinct ids, none of which is already present. -/
theorem runOps_go_ids :
    ∀ (ops : List Op) (inv : List Item),
      (addIds ops).Nodup → (inv.map Item.id).Nodup →
      (∀ s ∈ addIds ops, s ∉ inv.map Item.id) →
      ((ops.foldl applyOp inv).map Item.id).Nodup := by
  intro ops
  induction ops with
  | nil => intro inv _ hinv _; simpa using hinv
  | cons op rest ih =>
      intro inv hnodup hinv hdisj
      rw [List.foldl_cons]
      cases op with
      | add d now rand ts =>
          have hAdd : addIds (Op.add d now rand ts :: rest)
              = generateId now rand :: addIds rest := rfl
          rw [hAdd] at hnodup hdisj
          obtain ⟨hgen, hrest⟩ := List.nodup_cons.mp hnodup
          apply ih
          · exact hrest
          · show ((mkNewItem d now rand ts :: inv).map Item.id).Nodup
            rw [List.map_cons]
            exact List.nodup_cons.mpr ⟨hdisj (generateId now rand) (by simp), hinv⟩
          · intro s hs
            show s ∉ (mkNewItem d now rand ts :: inv).map Item.id
            rw [List.map_cons]
            intro hmem
            rcases List.mem_cons.mp hmem with h1 | h2
            · rw [h1] at hs
              exact hgen hs
            · exact hdisj s (List.mem_cons_of_mem _ hs) h2
      | update id p ts =>
          apply ih
          · exact hnodup
          · show ((updateItem id p ts inv).map Item.id).Nodup
            rw [updateItem_map_id]
            exact hinv
          · intro s hs
            show s ∉ (updateItem id p ts inv).map Item.id
            rw [updateItem_map_id]
            exact hdisj s hs
      | adjust id delta ts =>
          apply ih
          · exact hnodup
          · show ((updateQuantity id delta ts inv).map Item.id).Nodup
            rw [updateQuantity_map_id]
            exact hinv
          · intro s hs
            show s ∉ (updateQuantity id delta ts inv).map Item.id
            rw [updateQuantity_map_id]
            exact hdisj s hs
      | remove id =>
          have hsub := deleteItem_map_id_sublist id inv
          apply ih
          · exact hnodup
          · exact List.Nodup.sublist hsub hinv
          · intro s hs h2
            exact hdisj s hs (hsub.subset h2)

/-- C8 counterexample: two add operations run with the same clock value and
the same random suffix produce two records carrying the same id, so a state
with duplicate ids is reachable from the empty collection; the generator
consults neither the collection nor its own previous outputs. -/
theorem reachable_duplicate_ids :
    (runOps [Op.add draftW 0 "aa" "t0", Op.add draftW 0 "aa" "t0"]).map Item.id
      = ["item_0_aa", "item_0_aa"]
    ∧ ¬ ((runOps [Op.add draftW 0 "aa" "t0",
          Op.add draftW 0 "aa" "t0"]).map Item.id).Nodup := by
  exact ⟨by decide, by decide⟩

/-- C8 (amended): ids are pairwise distinct in every state reachable from
the empty collection provided the environment never feeds the generator
the same clock value and random suffix pair twice against an already used
output (the generated ids of the trace are pairwise distinct); update,
adjustQuantity and changeQty preserve the id of every record
unconditionally. -/
theorem ids_invariant (ops : List Op) (h : (addIds ops).Nodup) :
    ((runOps ops).map Item.id).Nodup
    ∧ (∀ (id : String) (p : Patch) (ts : String) (inv : List Item),
        (updateItem id p ts inv).map Item.id = inv.map Item.id)
    ∧ (∀ (id : String) (delta : Int) (ts : String) (inv : List Item),
        (updateQuantity id delta ts inv).map Item.id = inv.map Item.id)
    ∧ (∀ (id : String) (d : Int) (inv : List Item),
        (changeQty id d inv).map Item.id = inv.map Item.id) := by
  refine ⟨?_, fun id p ts inv => updateItem_map_id id p ts inv,
    fun id delta ts inv => updateQuantity_map_id id delta ts inv,
    fun id d inv => changeQty_map_id id d inv⟩
  exact runOps_go_ids ops [] h (by simp) (by simp)

/-- Witness for C8 at a concrete input: two adds at distinct clock values
yield distinct ids. -/
theorem ids_invariant_witness :
    (addIds [Op.add draftW 0 "aa" "t0", Op.add draftW 1 "bb" "t1"]).Nodup
    ∧ ((runOps [Op.add draftW 0 "aa" "t0",
        Op.add draftW 1 "bb" "t1"]).map Item.id).Nodup := by
  have h : (addIds [Op.add draftW 0 "aa" "t0", Op.add draftW 1 "bb" "t1"]).Nodup := by
    decide
  exact ⟨h, (ids_invariant _ h).1⟩
